import Mathlib

/-!
A verification development for the topic-segmentation engine of
`scripts/524-segment-transcripts-by-topic.py`.

The Python code is shallowly embedded: Python floats become real numbers
(`ℝ`) for embedding coordinates and similarities, rationals (`ℚ`) for word
timestamps, and `Except String` models a raised `ValueError`.  List-valued
Python slices become `List.take`/`List.drop` combinations, and the
imperative accumulation loops become structural recursions carrying the
loop state.
-/

open Real

/-- A word of the transcript: `{word, start, end, confidence}`. -/
structure Word where
  word : String
  start : ℚ
  endTime : ℚ
  confidence : ℚ
deriving DecidableEq, Repr

instance : Inhabited Word := ⟨⟨"", 0, 0, 1⟩⟩

/-- A sentence as produced by `group_words_into_sentences`:
`{text, words, start, end, wordCount}` (`end` is spelled `endTime`). -/
structure Sentence where
  text : String
  words : List Word
  start : ℚ
  endTime : ℚ
  wordCount : ℕ
deriving DecidableEq, Repr

instance : Inhabited Sentence := ⟨⟨"", [], 0, 0, 0⟩⟩

/-- A rebuilt paragraph as produced by `build_paragraphs_from_sentences`. -/
structure Paragraph where
  id : String
  text : String
  words : List Word
  segments : List String
  chunkIds : List String
  start : ℚ
  endTime : ℚ
  duration : ℚ
  wordCount : ℕ
  isTopicStart : Bool
  topicSimilarity : ℝ
  sentenceCount : ℕ

instance : Inhabited Paragraph := ⟨⟨"", "", [], [], [], 0, 0, 0, 0, false, 1, 0⟩⟩

/-- Python's `' '.join(xs)`: the elements separated by single spaces. -/
def joinSpace : List String → String
  | [] => ""
  | [s] => s
  | s :: r :: rest => s ++ " " ++ joinSpace (r :: rest)

/-- `cosine_similarity` (lines 349-377).  A length mismatch raises
`ValueError`, modelled as `Except.error`; a zero norm on either side
yields `0.0`; otherwise `dot / (norm_a * norm_b)`. -/
noncomputable def cosine_similarity (vec_a vec_b : List ℝ) : Except String ℝ :=
  if vec_a.length ≠ vec_b.length then
    .error ("Vectors must have same length: " ++ toString vec_a.length ++
      " vs " ++ toString vec_b.length)
  else
    let dot_product : ℝ := ((vec_a.zip vec_b).map (fun p => p.1 * p.2)).sum
    let norm_a : ℝ := Real.sqrt ((vec_a.map (fun a => a * a)).sum)
    let norm_b : ℝ := Real.sqrt ((vec_b.map (fun b => b * b)).sum)
    if norm_a = 0 ∨ norm_b = 0 then .ok 0
    else .ok (dot_product / (norm_a * norm_b))

/-- The dot product `sum(a * b for a, b in zip(vec_a, vec_b))`. -/
noncomputable def dotProduct (a b : List ℝ) : ℝ :=
  ((a.zip b).map (fun p => p.1 * p.2)).sum

/-- The squared Euclidean norm `sum(a * a for a in vec)`. -/
noncomputable def normSq (a : List ℝ) : ℝ :=
  (a.map (fun x => x * x)).sum

/-- The value `cosine_similarity` returns when it does not raise. -/
noncomputable def cosSpec (a b : List ℝ) : ℝ :=
  if Real.sqrt (normSq a) = 0 ∨ Real.sqrt (normSq b) = 0 then 0
  else dotProduct a b / (Real.sqrt (normSq a) * Real.sqrt (normSq b))

/-- `average_embedding` (lines 380-392): empty input gives `[]`, a single
vector is returned as-is, otherwise element-wise sums (accumulated into a
zero vector of the first vector's dimensionality) divided by the count. -/
noncomputable def average_embedding : List (List ℝ) → List ℝ
  | [] => []
  | [e] => e
  | e :: f :: rest =>
    let es := e :: f :: rest
    let dims := e.length
    let sums := es.foldl (fun avg emb => avg.zipWith (· + ·) emb) (List.replicate dims (0 : ℝ))
    sums.map (fun v => v / (es.length : ℝ))

/-- The loop of `detect_topic_boundaries` (lines 395-426): for each index
`i` of the given list, compare embeddings `i` and `i+1`; a raised
`ValueError` aborts the whole computation. -/
noncomputable def detectLoop (E : List (List ℝ)) (threshold : ℝ) :
    List ℕ → List ℕ → List ℝ → Except String (List ℕ × List ℝ)
  | [], boundaries, similarities => .ok (boundaries, similarities)
  | i :: rest, boundaries, similarities =>
    match cosine_similarity (E.getD i []) (E.getD (i + 1) []) with
    | .error e => .error e
    | .ok sim =>
      detectLoop E threshold rest
        (if sim < threshold then boundaries ++ [i + 1] else boundaries)
        (similarities ++ [sim])

/-- `detect_topic_boundaries` (lines 395-426). -/
noncomputable def detect_topic_boundaries (embeddings : List (List ℝ)) (threshold : ℝ) :
    Except String (List ℕ × List ℝ) :=
  detectLoop embeddings threshold (List.range (embeddings.length - 1)) [] []

/-- The loop of `detect_topic_boundaries_windowed` (lines 429-484): for
each candidate `i`, average `embeddings[max(0, i-w):i]` and
`embeddings[i:min(n, i+w)]` and compare; `i - w` over `ℕ` is
`max(0, i - w)`. -/
noncomputable def windowedLoop (E : List (List ℝ)) (threshold : ℝ) (window_size : ℕ) :
    List ℕ → List ℕ → List ℝ → Except String (List ℕ × List ℝ)
  | [], boundaries, similarities => .ok (boundaries, similarities)
  | i :: rest, boundaries, similarities =>
    let before_window := (E.take i).drop (i - window_size)
    let after_window := (E.take (min E.length (i + window_size))).drop i
    let before_avg := average_embedding before_window
    let after_avg := average_embedding after_window
    match cosine_similarity before_avg after_avg with
    | .error e => .error e
    | .ok sim =>
      windowedLoop E threshold window_size rest
        (if sim < threshold then boundaries ++ [i] else boundaries)
        (similarities ++ [sim])

/-- `detect_topic_boundaries_windowed` (lines 429-484): fewer than two
embeddings give no boundaries and no similarities; otherwise the loop
runs over the candidate indices `1, …, n-1`. -/
noncomputable def detect_topic_boundaries_windowed (embeddings : List (List ℝ))
    (threshold : ℝ) (window_size : ℕ) : Except String (List ℕ × List ℝ) :=
  if embeddings.length < 2 then .ok ([], [])
  else windowedLoop embeddings threshold window_size
    (List.range' 1 (embeddings.length - 1)) [] []

/-- The element-wise average of a family of `d`-dimensional vectors, as
the spec describes it: coordinate `j` of the result is the mean of the
`j`-th coordinates. -/
noncomputable def meanVec (d : ℕ) (vs : List (List ℝ)) : List ℝ :=
  (List.range d).map (fun j => (vs.map (fun v => v.getD j 0)).sum / (vs.length : ℝ))

/-- The similarity the adjacent-pair detector computes at index `i`. -/
noncomputable def adjSim (E : List (List ℝ)) (i : ℕ) : ℝ :=
  cosSpec (E.getD i []) (E.getD (i + 1) [])

/-- The similarity the windowed detector computes at candidate `i`. -/
noncomputable def windowSim (E : List (List ℝ)) (w i : ℕ) : ℝ :=
  cosSpec (average_embedding ((E.take i).drop (i - w)))
    (average_embedding ((E.take (min E.length (i + w))).drop i))

/-- Python's default `str.strip()` whitespace test (ASCII whitespace):
`not segment or not segment.strip()` holds exactly when every character
is whitespace. -/
def isBlankSegment (s : String) : Bool :=
  s.data.all (fun c => c = ' ' || c = '\t' || c = '\n' || c = '\r' ||
    c = '\x0b' || c = '\x0c')

/-- The external collaborators of `get_embeddings_for_segments` (lines
265-341), abstracted: the configured dimensionality `EMBEDDING_DIMS`,
whether the S3 Vectors cache is available, the cache lookup, the Bedrock
embedding call, and `get_segment_key`. -/
structure EmbedEnv where
  embedding_dims : ℕ
  cache_available : Bool
  cached : String → Option (List ℝ)
  provider : String → List ℝ
  segment_key : String → String

/-- The observable outcome of `get_embeddings_for_segments`: the
embeddings in segment order, plus the keys looked up in the cache and
the texts sent to the embedding provider, in call order. -/
structure EmbedTrace where
  embeddings : List (List ℝ)
  cache_lookups : List String
  provider_calls : List String

/-- One iteration of the `get_embeddings_for_segments` loop (lines
295-327): a blank segment yields a zero vector of the configured
dimensionality and skips cache and provider; otherwise the cache is
consulted when available, and on a miss the provider is called. -/
def embedStep (env : EmbedEnv) (acc : EmbedTrace) (segment : String) : EmbedTrace :=
  if isBlankSegment segment then
    { acc with embeddings := acc.embeddings ++ [List.replicate env.embedding_dims 0] }
  else
    let segKey := env.segment_key segment
    let fromCache := if env.cache_available then env.cached segKey else none
    let lookups := if env.cache_available then acc.cache_lookups ++ [segKey]
      else acc.cache_lookups
    match fromCache with
    | some e =>
      { acc with embeddings := acc.embeddings ++ [e], cache_lookups := lookups }
    | none =>
      { embeddings := acc.embeddings ++ [env.provider segment],
        cache_lookups := lookups,
        provider_calls := acc.provider_calls ++ [segment] }

/-- `get_embeddings_for_segments` (lines 265-341), with its cache and
provider I/O abstracted into `EmbedEnv` and recorded in the trace. -/
def get_embeddings_for_segments (env : EmbedEnv) (segments : List String) : EmbedTrace :=
  segments.foldl (embedStep env) ⟨[], [], []⟩

/-- The embedding `get_embeddings_for_segments` resolves for one
segment; it does not depend on the surrounding loop state. -/
def resolveEmbedding (env : EmbedEnv) (segment : String) : List ℝ :=
  if isBlankSegment segment then List.replicate env.embedding_dims 0
  else
    match (if env.cache_available then env.cached (env.segment_key segment) else none) with
    | some e => e
    | none => env.provider segment

/-- Does a word's text end in sentence-terminal punctuation
(`re.search(r'[.!?]$', word)`)? -/
def endsWithPunct (s : String) : Bool :=
  match s.data.getLast? with
  | some c => c = '.' || c = '!' || c = '?'
  | none => false

/-- The sentence record built when `group_words_into_sentences` closes
its current buffer (lines 513-572):
`' '.flatten(words)`, the buffered words, first start, last end, count. -/
def mkSentence (ws : List Word) : Sentence :=
  { text := joinSpace (ws.map Word.word),
    words := ws,
    start := ws.headI.start,
    endTime := (ws.getLastD default).endTime,
    wordCount := ws.length }

/-- The loop of `group_words_into_sentences`: a sentence ends at
terminal punctuation, at a pause strictly greater than the threshold
before the next word, or at the last word. -/
def groupLoop (pause_threshold : ℚ) : List Word → List Word → List Sentence
  | [], _ => []
  | w :: rest, current_sentence_words =>
    let cur2 := current_sentence_words ++ [w]
    let is_sentence_end := endsWithPunct w.word ||
      (rest.head?.elim false (fun next => decide (next.start - w.endTime > pause_threshold))) ||
      rest.isEmpty
    if is_sentence_end then mkSentence cur2 :: groupLoop pause_threshold rest []
    else groupLoop pause_threshold rest cur2

/-- `group_words_into_sentences` (lines 513-572). -/
def group_words_into_sentences (words : List Word) (pause_threshold : ℚ) : List Sentence :=
  if words.isEmpty then [] else groupLoop pause_threshold words []

/-- In-place merge of a short sentence into the previously accepted
sentence (lines 589-595): append text and words, extend the end time,
recompute the word count. -/
def mergePrev (prev current : Sentence) : Sentence :=
  { prev with
    text := prev.text ++ " " ++ current.text,
    words := prev.words ++ current.words,
    endTime := current.endTime,
    wordCount := (prev.words ++ current.words).length }

/-- In-place merge of a short sentence into the next sentence (lines
596-603): prepend text and words, pull the start time back, recompute
the word count. -/
def mergeNext (current next : Sentence) : Sentence :=
  { next with
    text := current.text ++ " " ++ next.text,
    words := current.words ++ next.words,
    start := current.start,
    wordCount := (current.words ++ next.words).length }

/-- The `while` loop of `merge_short_sentences` (lines 575-619),
`merged` being the accepted prefix.  A short sentence is folded into the
last accepted sentence if any, else into the next sentence (which is
then processed in its merged form), else kept as-is. -/
def mergeLoop (min_words : ℕ) : List Sentence → List Sentence → List Sentence
  | merged, [] => merged
  | merged, current :: rest =>
    if current.wordCount < min_words then
      merged.getLast?.elim
        (if rest.isEmpty then merged ++ [current]
          else mergeLoop min_words merged (mergeNext current rest.headI :: rest.tail))
        (fun prev => mergeLoop min_words (merged.dropLast ++ [mergePrev prev current]) rest)
    else mergeLoop min_words (merged ++ [current]) rest
termination_by _ l => l.length
decreasing_by
  all_goals simp_wf
  all_goals rename_i h
  all_goals rw [List.isEmpty_iff] at h
  all_goals exact List.length_pos.mpr h

/-- `merge_short_sentences` (lines 575-619): inputs of at most one
sentence are returned unchanged. -/
def merge_short_sentences (sentences : List Sentence) (min_words : ℕ) : List Sentence :=
  if sentences.length ≤ 1 then sentences
  else mergeLoop min_words [] sentences

/-- The paragraph record `build_paragraphs_from_sentences` emits (lines
699-784), parameterised by the fields the loop computes. -/
def mkPara (para_index : ℕ) (cur_sents : List Sentence) (cur_words : List Word)
    (is_topic_start : Bool) (topic_similarity : ℝ) : Paragraph :=
  { id := "para-topic-" ++ toString para_index,
    text := joinSpace (cur_sents.map Sentence.text),
    words := cur_words,
    segments := [],
    chunkIds := ["topic-" ++ toString (para_index + 1)],
    start := cur_sents.headI.start,
    endTime := (cur_sents.getLastD default).endTime,
    duration := (cur_sents.getLastD default).endTime - cur_sents.headI.start,
    wordCount := cur_words.length,
    isTopicStart := is_topic_start,
    topicSimilarity := topic_similarity,
    sentenceCount := cur_sents.length }

/-- The loop of `build_paragraphs_from_sentences`: `i` is the enumerate
index; a sentence whose index is in the boundary set closes the current
paragraph (when non-empty) with `isTopicStart` the tautology
`para_index == 0 or para_index > 0` and `topicSimilarity` read from the
similarity series; the trailing paragraph is flushed with
`isTopicStart = is_topic_start if para_index > 0 else True` where
`is_topic_start = (not paragraphs) or (len(sentences) - len(current)) in
boundary_set`, and `topicSimilarity = 1.0`. -/
def buildLoop (boundary_set : List ℕ) (similarities : List ℝ) :
    List Sentence → ℕ → List Paragraph → List Sentence → List Word → ℕ → List Paragraph
  | [], i, paragraphs, cur_sents, cur_words, para_index =>
    if cur_sents.isEmpty then paragraphs
    else
      let is_topic_start : Bool :=
        paragraphs.isEmpty || decide ((i - cur_sents.length) ∈ boundary_set)
      paragraphs ++ [mkPara para_index cur_sents cur_words
        (if 0 < para_index then is_topic_start else true) 1]
  | s :: rest, i, paragraphs, cur_sents, cur_words, para_index =>
    if i ∈ boundary_set ∧ ¬ cur_sents.isEmpty then
      let sim : ℝ := if 0 < i ∧ i - 1 < similarities.length
        then similarities.getD (i - 1) 0 else 1
      buildLoop boundary_set similarities rest (i + 1)
        (paragraphs ++ [mkPara para_index cur_sents cur_words
          (decide (para_index = 0 ∨ 0 < para_index)) sim])
        [s] s.words (para_index + 1)
    else
      buildLoop boundary_set similarities rest (i + 1)
        paragraphs (cur_sents ++ [s]) (cur_words ++ s.words) para_index

/-- The final `paragraphs[0]['isTopicStart'] = True` fix-up. -/
def markFirstTopicStart : List Paragraph → List Paragraph
  | [] => []
  | p :: ps => { p with isTopicStart := true } :: ps

/-- `build_paragraphs_from_sentences` (lines 699-784). -/
def build_paragraphs_from_sentences (sentences : List Sentence) (boundaries : List ℕ)
    (similarities : List ℝ) : List Paragraph :=
  if sentences.isEmpty then []
  else markFirstTopicStart (buildLoop boundaries similarities sentences 0 [] [] [] 0)

lemma normSq_nonneg (a : List ℝ) : 0 ≤ normSq a := by
  apply List.sum_nonneg
  intro x hx
  simp only [List.mem_map] at hx
  obtain ⟨y, -, rfl⟩ := hx
  exact mul_self_nonneg y

lemma sqrt_normSq_eq_zero_iff (a : List ℝ) : Real.sqrt (normSq a) = 0 ↔ normSq a = 0 := by
  rw [Real.sqrt_eq_zero (normSq_nonneg a)]

lemma cosine_similarity_ok (a b : List ℝ) (h : a.length = b.length) :
    cosine_similarity a b = .ok (cosSpec a b) := by
  unfold cosine_similarity cosSpec dotProduct normSq
  simp only [h, ne_eq, not_true_eq_false, if_false, ite_not]
  split <;> rfl

/-- C4: `cosine_similarity` raises exactly on a length mismatch; for
equal-length inputs it never raises, returning `dot / (‖a‖ * ‖b‖)`, and
returning `0.0` whenever either vector has zero norm — in particular for
two empty vectors. -/
theorem cosine_similarity_error_spec (a b : List ℝ) :
    (a.length ≠ b.length → ∃ msg, cosine_similarity a b = .error msg) ∧
    (a.length = b.length →
      cosine_similarity a b =
        .ok (if Real.sqrt (normSq a) = 0 ∨ Real.sqrt (normSq b) = 0 then 0
          else dotProduct a b / (Real.sqrt (normSq a) * Real.sqrt (normSq b)))) ∧
    (a.length = b.length → normSq a = 0 ∨ normSq b = 0 →
      cosine_similarity a b = .ok 0) ∧
    cosine_similarity ([] : List ℝ) [] = .ok 0 := by
  refine ⟨fun h => ⟨_, by unfold cosine_similarity; rw [if_pos h]⟩, fun h => ?_, fun h h0 => ?_, ?_⟩
  · rw [cosine_similarity_ok a b h]; rfl
  · rw [cosine_similarity_ok a b h]
    unfold cosSpec
    rw [if_pos]
    rcases h0 with h0 | h0
    · exact Or.inl ((sqrt_normSq_eq_zero_iff a).mpr h0)
    · exact Or.inr ((sqrt_normSq_eq_zero_iff b).mpr h0)
  · rw [cosine_similarity_ok [] [] rfl]
    unfold cosSpec
    rw [if_pos (Or.inl (by simp [normSq]))]

/-- Witness for C4 at concrete inputs: a mismatched pair raises, a
zero-norm pair yields `0.0`. -/
theorem cosine_similarity_error_spec_witness :
    (∃ msg, cosine_similarity [(3 : ℝ)] [4, 5] = .error msg) ∧
      cosine_similarity [(0 : ℝ)] [0] = .ok 0 :=
  ⟨(cosine_similarity_error_spec [(3 : ℝ)] [4, 5]).1 (by simp),
    (cosine_similarity_error_spec [(0 : ℝ)] [0]).2.2.1 rfl (Or.inl (by simp [normSq]))⟩

lemma map_getD_range (l : List ℝ) : (List.range l.length).map (fun j => l.getD j 0) = l := by
  apply List.ext_getElem
  · simp
  · intro i h1 h2
    simp only [List.getElem_map, List.getElem_range]
    exact List.getD_eq_getElem _ _ (by simpa using h2)

lemma foldl_zipWith_add (d : ℕ) :
    ∀ (vs : List (List ℝ)) (acc : List ℝ), acc.length = d → (∀ v ∈ vs, v.length = d) →
      vs.foldl (fun avg emb => avg.zipWith (· + ·) emb) acc =
        (List.range d).map (fun j => acc.getD j 0 + (vs.map (fun v => v.getD j 0)).sum)
  | [], acc, hacc, _ => by
      simp only [List.foldl_nil, List.map_nil, List.sum_nil, add_zero]
      rw [← hacc, map_getD_range]
  | v :: vs, acc, hacc, hv => by
      have hvlen : v.length = d := hv v (by simp)
      have hzlen : (acc.zipWith (· + ·) v).length = d := by
        simp [List.length_zipWith, hacc, hvlen]
      rw [List.foldl_cons,
        foldl_zipWith_add d vs (acc.zipWith (· + ·) v) hzlen
          (fun u hu => hv u (List.mem_cons_of_mem v hu))]
      apply List.map_congr_left
      intro j hj
      have hjd : j < d := List.mem_range.mp hj
      have h1 : (acc.zipWith (· + ·) v).getD j 0 = acc.getD j 0 + v.getD j 0 := by
        rw [List.getD_eq_getElem _ _ (by omega : j < (acc.zipWith (· + ·) v).length),
          List.getD_eq_getElem _ _ (by omega : j < acc.length),
          List.getD_eq_getElem _ _ (by omega : j < v.length), List.getElem_zipWith]
      rw [h1, List.map_cons, List.sum_cons, add_assoc]

lemma average_embedding_eq_meanVec (d : ℕ) :
    ∀ (vs : List (List ℝ)), vs ≠ [] → (∀ v ∈ vs, v.length = d) →
      average_embedding vs = meanVec d vs
  | [], hne, _ => absurd rfl hne
  | [e], _, hv => by
      have he : e.length = d := hv e (by simp)
      show e = meanVec d [e]
      unfold meanVec
      simp only [List.map_cons, List.map_nil, List.sum_cons, List.sum_nil, add_zero,
        List.length_cons, List.length_nil, zero_add, Nat.cast_one, div_one]
      rw [← he, map_getD_range]
  | e :: f :: rest, _, hv => by
      have he : e.length = d := hv e (by simp)
      show ((e :: f :: rest).foldl (fun avg emb => avg.zipWith (· + ·) emb)
          (List.replicate e.length (0 : ℝ))).map
            (fun v => v / ((e :: f :: rest).length : ℝ)) = meanVec d (e :: f :: rest)
      rw [he, foldl_zipWith_add d (e :: f :: rest) (List.replicate d 0) (by simp) hv]
      unfold meanVec
      rw [List.map_map]
      apply List.map_congr_left
      intro j hj
      have hjd : j < d := List.mem_range.mp hj
      have : (List.replicate d (0 : ℝ)).getD j 0 = 0 := by
        rw [List.getD_eq_getElem _ _ (by simpa using hjd)]
        simp
      simp [Function.comp, this]

lemma average_embedding_length (d : ℕ) (vs : List (List ℝ)) (hne : vs ≠ [])
    (hv : ∀ v ∈ vs, v.length = d) : (average_embedding vs).length = d := by
  rw [average_embedding_eq_meanVec d vs hne hv]
  simp [meanVec]

lemma average_embedding_singleton (e : List ℝ) : average_embedding [e] = e := rfl

lemma detectLoop_ok (E : List (List ℝ)) (θ : ℝ) (d : ℕ) (hd : ∀ v ∈ E, v.length = d) :
    ∀ (I : List ℕ) (bs : List ℕ) (sims : List ℝ), (∀ i ∈ I, i + 1 < E.length) →
      detectLoop E θ I bs sims =
        .ok (bs ++ (I.filter (fun i => decide (adjSim E i < θ))).map (· + 1),
          sims ++ I.map (adjSim E)) := by
  intro I
  induction I with
  | nil => intro bs sims _; simp [detectLoop]
  | cons i rest ih =>
    intro bs sims hI
    have hi1 : i + 1 < E.length := hI i (List.mem_cons_self i rest)
    have hgi : (E.getD i []).length = d := by
      rw [List.getD_eq_getElem _ _ (by omega)]
      exact hd _ (List.getElem_mem _)
    have hgi1 : (E.getD (i + 1) []).length = d := by
      rw [List.getD_eq_getElem _ _ hi1]
      exact hd _ (List.getElem_mem _)
    unfold detectLoop
    rw [cosine_similarity_ok _ _ (hgi.trans hgi1.symm)]
    show detectLoop E θ rest (if cosSpec (E.getD i []) (E.getD (i + 1) []) < θ then
        bs ++ [i + 1] else bs) (sims ++ [cosSpec (E.getD i []) (E.getD (i + 1) [])]) = _
    rw [ih _ _ (fun j hj => hI j (List.mem_cons_of_mem i hj))]
    by_cases h : adjSim E i < θ
    · simp [adjSim] at h
      simp [h, adjSim, List.filter_cons, List.append_assoc]
    · simp [adjSim] at h
      simp [h, adjSim, List.filter_cons, List.append_assoc]

lemma before_window_members (E : List (List ℝ)) (d w i : ℕ) (hd : ∀ v ∈ E, v.length = d) :
    ∀ v ∈ (E.take i).drop (i - w), v.length = d :=
  fun v hv => hd v (List.mem_of_mem_take (List.mem_of_mem_drop hv))

lemma after_window_members (E : List (List ℝ)) (d w i : ℕ) (hd : ∀ v ∈ E, v.length = d) :
    ∀ v ∈ (E.take (min E.length (i + w))).drop i, v.length = d :=
  fun v hv => hd v (List.mem_of_mem_take (List.mem_of_mem_drop hv))

lemma window_avg_lengths (E : List (List ℝ)) (d w i : ℕ) (hd : ∀ v ∈ E, v.length = d)
    (h1 : 1 ≤ i) (h2 : i < E.length) :
    (average_embedding ((E.take i).drop (i - w))).length =
      (average_embedding ((E.take (min E.length (i + w))).drop i)).length := by
  have lb : ((E.take i).drop (i - w)).length = min i E.length - (i - w) := by
    simp [List.length_drop, List.length_take]
  have la : ((E.take (min E.length (i + w))).drop i).length
      = min (min E.length (i + w)) E.length - i := by
    simp [List.length_drop, List.length_take]
  rcases Nat.eq_zero_or_pos w with hw | hw
  · subst hw
    have hb : (E.take i).drop (i - 0) = [] := by
      rw [← List.length_eq_zero, lb]; omega
    have ha : (E.take (min E.length (i + 0))).drop i = [] := by
      rw [← List.length_eq_zero, la]; omega
    rw [hb, ha]
  · have hbne : (E.take i).drop (i - w) ≠ [] := by
      rw [← List.length_pos]
      omega
    have hane : (E.take (min E.length (i + w))).drop i ≠ [] := by
      rw [← List.length_pos]
      omega
    rw [average_embedding_length d _ hbne (before_window_members E d w i hd),
      average_embedding_length d _ hane (after_window_members E d w i hd)]

lemma windowedLoop_ok (E : List (List ℝ)) (θ : ℝ) (w d : ℕ) (hd : ∀ v ∈ E, v.length = d) :
    ∀ (I : List ℕ) (bs : List ℕ) (sims : List ℝ), (∀ i ∈ I, 1 ≤ i ∧ i < E.length) →
      windowedLoop E θ w I bs sims =
        .ok (bs ++ I.filter (fun i => decide (windowSim E w i < θ)),
          sims ++ I.map (windowSim E w)) := by
  intro I
  induction I with
  | nil => intro bs sims _; simp [windowedLoop]
  | cons i rest ih =>
    intro bs sims hI
    obtain ⟨hi1, hi2⟩ := hI i (List.mem_cons_self i rest)
    unfold windowedLoop
    dsimp only
    rw [cosine_similarity_ok _ _ (window_avg_lengths E d w i hd hi1 hi2)]
    show windowedLoop E θ w rest (if windowSim E w i < θ then bs ++ [i] else bs)
      (sims ++ [windowSim E w i]) = _
    rw [ih _ _ (fun j hj => hI j (List.mem_cons_of_mem i hj))]
    by_cases h : windowSim E w i < θ
    · simp [h, List.filter_cons, List.append_assoc]
    · simp [h, List.filter_cons, List.append_assoc]

lemma detect_topic_boundaries_eq (E : List (List ℝ)) (θ : ℝ) (d : ℕ)
    (hd : ∀ v ∈ E, v.length = d) :
    detect_topic_boundaries E θ =
      .ok (((List.range (E.length - 1)).filter (fun i => decide (adjSim E i < θ))).map (· + 1),
        (List.range (E.length - 1)).map (adjSim E)) := by
  unfold detect_topic_boundaries
  rw [detectLoop_ok E θ d hd _ [] [] ?_]
  · simp
  · intro i hi
    have := List.mem_range.mp hi
    omega

lemma detect_topic_boundaries_windowed_eq (E : List (List ℝ)) (θ : ℝ) (w d : ℕ)
    (hd : ∀ v ∈ E, v.length = d) (h2 : 2 ≤ E.length) :
    detect_topic_boundaries_windowed E θ w =
      .ok ((List.range' 1 (E.length - 1)).filter (fun i => decide (windowSim E w i < θ)),
        (List.range' 1 (E.length - 1)).map (windowSim E w)) := by
  unfold detect_topic_boundaries_windowed
  rw [if_neg (by omega)]
  rw [windowedLoop_ok E θ w d hd _ [] [] ?_]
  · simp
  · intro i hi
    have := List.mem_range'_1.mp hi
    omega

lemma slice_singleton (E : List (List ℝ)) (j : ℕ) (h : j < E.length) :
    (E.take (j + 1)).drop j = [E.getD j []] := by
  apply List.ext_getElem
  · simp only [List.length_drop, List.length_take, List.length_cons, List.length_nil]
    omega
  · intro i h1 h2
    have hi : i = 0 := by
      simp only [List.length_cons, List.length_nil] at h2
      omega
    subst hi
    have h1' : j + 0 < (E.take (j + 1)).length := by
      simp only [List.length_take]
      omega
    rw [List.getElem_drop, List.getElem_take]
    simp only [List.getElem_cons_zero]
    exact (List.getD_eq_getElem _ _ (by omega)).symm

/-- C1: on `n ≥ 2` equal-length embeddings and a positive window size,
the windowed detector emits one similarity per candidate index
`1 … n-1` in order — the cosine similarity of the element-wise averages
of the before window `[max(0,i-w), i)` and the after window
`[i, min(n,i+w))` — and the boundary list consists exactly of the
candidates whose similarity is strictly below the threshold, in ascending
order; on fewer than 2 embeddings it returns no boundaries and no
similarities. -/
theorem windowed_detector_spec (E : List (List ℝ)) (θ : ℝ) (w d : ℕ)
    (hd : ∀ v ∈ E, v.length = d) (hw : 1 ≤ w) :
    (2 ≤ E.length →
      ∃ bs sims, detect_topic_boundaries_windowed E θ w = .ok (bs, sims) ∧
        sims.length = E.length - 1 ∧
        (∀ k, k < E.length - 1 →
          sims.getD k 0 =
            cosSpec (meanVec d ((E.take (k + 1)).drop (k + 1 - w)))
              (meanVec d ((E.take (min E.length (k + 1 + w))).drop (k + 1)))) ∧
        (∀ i, i ∈ bs ↔ 1 ≤ i ∧ i ≤ E.length - 1 ∧ sims.getD (i - 1) 0 < θ) ∧
        bs.Pairwise (· < ·)) ∧
    (E.length < 2 → detect_topic_boundaries_windowed E θ w = .ok ([], [])) := by
  have hsim : ∀ i, 1 ≤ i → i < E.length →
      windowSim E w i =
        cosSpec (meanVec d ((E.take i).drop (i - w)))
          (meanVec d ((E.take (min E.length (i + w))).drop i)) := by
    intro i h1 h2
    have lb : ((E.take i).drop (i - w)).length = min i E.length - (i - w) := by
      simp [List.length_drop, List.length_take]
    have la : ((E.take (min E.length (i + w))).drop i).length
        = min (min E.length (i + w)) E.length - i := by
      simp [List.length_drop, List.length_take]
    have hbne : (E.take i).drop (i - w) ≠ [] := by
      rw [← List.length_pos]
      omega
    have hane : (E.take (min E.length (i + w))).drop i ≠ [] := by
      rw [← List.length_pos]
      omega
    unfold windowSim
    rw [average_embedding_eq_meanVec d _ hbne (before_window_members E d w i hd),
      average_embedding_eq_meanVec d _ hane (after_window_members E d w i hd)]
  constructor
  · intro h2
    refine ⟨_, _, detect_topic_boundaries_windowed_eq E θ w d hd h2, ?_, ?_, ?_, ?_⟩
    · simp
    · intro k hk
      have hget : ((List.range' 1 (E.length - 1)).map (windowSim E w)).getD k 0
          = windowSim E w (1 + k) := by
        rw [List.getD_eq_getElem _ _ (by simpa using hk)]
        simp [List.getElem_range']
      rw [hget, hsim (1 + k) (by omega) (by omega)]
      have : 1 + k = k + 1 := by omega
      rw [this]
    · intro i
      simp only [List.mem_filter, List.mem_range'_1, decide_eq_true_eq]
      constructor
      · rintro ⟨⟨hi1, hi2⟩, hlt⟩
        refine ⟨hi1, by omega, ?_⟩
        have hget : ((List.range' 1 (E.length - 1)).map (windowSim E w)).getD (i - 1) 0
            = windowSim E w i := by
          rw [List.getD_eq_getElem _ _ (by simp; omega)]
          simp only [List.getElem_map, List.getElem_range']
          congr 1
          omega
        rw [hget]
        exact hlt
      · rintro ⟨hi1, hi2, hlt⟩
        have hget : ((List.range' 1 (E.length - 1)).map (windowSim E w)).getD (i - 1) 0
            = windowSim E w i := by
          rw [List.getD_eq_getElem _ _ (by simp; omega)]
          simp only [List.getElem_map, List.getElem_range']
          congr 1
          omega
        rw [hget] at hlt
        exact ⟨⟨hi1, by omega⟩, hlt⟩
    · exact (List.pairwise_lt_range' 1 (E.length - 1)).filter _
  · intro h2
    unfold detect_topic_boundaries_windowed
    rw [if_pos h2]

/-- C3: the boundary index list of either detector is strictly increasing
and each returned index `i` satisfies `1 ≤ i ≤ n - 1`. -/
theorem boundary_monotonicity (E : List (List ℝ)) (θ : ℝ) (w d : ℕ)
    (hd : ∀ v ∈ E, v.length = d) :
    (∃ bs sims, detect_topic_boundaries E θ = .ok (bs, sims) ∧
      bs.Pairwise (· < ·) ∧ ∀ i ∈ bs, 1 ≤ i ∧ i ≤ E.length - 1) ∧
    (∃ bs sims, detect_topic_boundaries_windowed E θ w = .ok (bs, sims) ∧
      bs.Pairwise (· < ·) ∧ ∀ i ∈ bs, 1 ≤ i ∧ i ≤ E.length - 1) := by
  constructor
  · refine ⟨_, _, detect_topic_boundaries_eq E θ d hd, ?_, ?_⟩
    · exact ((List.pairwise_lt_range (E.length - 1)).filter _).map _
        (fun a b hab => by omega)
    · intro i hi
      simp only [List.mem_map, List.mem_filter, List.mem_range] at hi
      obtain ⟨j, ⟨hj, -⟩, rfl⟩ := hi
      omega
  · rcases lt_or_le E.length 2 with h2 | h2
    · refine ⟨[], [], ?_, List.Pairwise.nil, by simp⟩
      unfold detect_topic_boundaries_windowed
      rw [if_pos h2]
    · refine ⟨_, _, detect_topic_boundaries_windowed_eq E θ w d hd h2, ?_, ?_⟩
      · exact (List.pairwise_lt_range' 1 (E.length - 1)).filter _
      · intro i hi
        simp only [List.mem_filter, List.mem_range'_1] at hi
        obtain ⟨⟨h1, hlt⟩, -⟩ := hi
        exact ⟨h1, by omega⟩

/-- Witness for C3 at a concrete input. -/
theorem boundary_monotonicity_witness :
    (∀ v ∈ [[(1 : ℝ), 0], [1, 0], [0, 1]], v.length = 2) ∧
      ((∃ bs sims, detect_topic_boundaries [[(1 : ℝ), 0], [1, 0], [0, 1]] (1 / 2) = .ok (bs, sims) ∧
        bs.Pairwise (· < ·) ∧
        ∀ i ∈ bs, 1 ≤ i ∧ i ≤ [[(1 : ℝ), 0], [1, 0], [0, 1]].length - 1) ∧
      (∃ bs sims,
        detect_topic_boundaries_windowed [[(1 : ℝ), 0], [1, 0], [0, 1]] (1 / 2) 3 = .ok (bs, sims) ∧
        bs.Pairwise (· < ·) ∧
        ∀ i ∈ bs, 1 ≤ i ∧ i ≤ [[(1 : ℝ), 0], [1, 0], [0, 1]].length - 1)) := by
  have hlen : ∀ v ∈ [[(1 : ℝ), 0], [1, 0], [0, 1]], v.length = 2 := by
    intro v hv
    simp only [List.mem_cons, List.not_mem_nil, or_false] at hv
    rcases hv with rfl | rfl | rfl
    · rfl
    · rfl
    · rfl
  exact ⟨hlen, boundary_monotonicity [[(1 : ℝ), 0], [1, 0], [0, 1]] (1 / 2) 3 2 hlen⟩

/-- Witness for C1 at a concrete input. -/
theorem windowed_detector_spec_witness :
    (∀ v ∈ [[(1 : ℝ), 0], [1, 0], [0, 1]], v.length = 2) ∧ (1 : ℕ) ≤ 1 ∧
      ((2 ≤ 3 →
        ∃ bs sims,
          detect_topic_boundaries_windowed [[(1 : ℝ), 0], [1, 0], [0, 1]] (1 / 2) 1
              = .ok (bs, sims) ∧
          sims.length = 2 ∧
          (∀ k, k < 2 →
            sims.getD k 0 =
              cosSpec
                (meanVec 2 (([[(1 : ℝ), 0], [1, 0], [0, 1]].take (k + 1)).drop (k + 1 - 1)))
                (meanVec 2
                  (([[(1 : ℝ), 0], [1, 0], [0, 1]].take (min 3 (k + 1 + 1))).drop (k + 1)))) ∧
          (∀ i, i ∈ bs ↔ 1 ≤ i ∧ i ≤ 2 ∧ sims.getD (i - 1) 0 < 1 / 2) ∧
          bs.Pairwise (· < ·)) ∧
      ((3 : ℕ) < 2 →
        detect_topic_boundaries_windowed [[(1 : ℝ), 0], [1, 0], [0, 1]] (1 / 2) 1
          = .ok ([], []))) := by
  have hlen : ∀ v ∈ [[(1 : ℝ), 0], [1, 0], [0, 1]], v.length = 2 := by
    intro v hv
    simp only [List.mem_cons, List.not_mem_nil, or_false] at hv
    rcases hv with rfl | rfl | rfl <;> rfl
  exact ⟨hlen, le_refl 1,
    windowed_detector_spec [[(1 : ℝ), 0], [1, 0], [0, 1]] (1 / 2) 1 2 hlen (le_refl 1)⟩

/-- C9: on equal-length embeddings the adjacent-pair detector and the
windowed detector with window size 1 return exactly the same boundary
list and the same similarity series. -/
theorem adjacent_eq_windowed_one (E : List (List ℝ)) (θ : ℝ) (d : ℕ)
    (hd : ∀ v ∈ E, v.length = d) :
    detect_topic_boundaries E θ = detect_topic_boundaries_windowed E θ 1 := by
  rcases lt_or_le E.length 2 with h2 | h2
  · have hn : E.length - 1 = 0 := by omega
    unfold detect_topic_boundaries detect_topic_boundaries_windowed
    rw [if_pos h2, hn]
    rfl
  · rw [detect_topic_boundaries_eq E θ d hd,
      detect_topic_boundaries_windowed_eq E θ 1 d hd h2]
    have hsim : ∀ j, j < E.length - 1 → windowSim E 1 (j + 1) = adjSim E j := by
      intro j hj
      unfold windowSim adjSim
      have hb : (E.take (j + 1)).drop (j + 1 - 1) = [E.getD j []] :=
        slice_singleton E j (by omega)
      have hmin : min E.length (j + 1 + 1) = j + 2 := by omega
      have ha : (E.take (min E.length (j + 1 + 1))).drop (j + 1) = [E.getD (j + 1) []] := by
        rw [hmin]
        exact slice_singleton E (j + 1) (by omega)
      rw [hb, ha, average_embedding_singleton, average_embedding_singleton]
    have hAC : ((List.range (E.length - 1)).filter (fun i => decide (adjSim E i < θ))).map (· + 1)
        = (List.range' 1 (E.length - 1)).filter (fun i => decide (windowSim E 1 i < θ)) := by
      rw [List.range'_eq_map_range, List.filter_map]
      have h1 : (List.range (E.length - 1)).filter
          ((fun i => decide (windowSim E 1 i < θ)) ∘ (fun j => 1 + j))
          = (List.range (E.length - 1)).filter (fun i => decide (adjSim E i < θ)) := by
        apply List.filter_congr
        intro j hj
        simp only [Function.comp_apply]
        rw [show 1 + j = j + 1 by omega, hsim j (List.mem_range.mp hj)]
      rw [h1]
      apply List.map_congr_left
      intro a _
      omega
    have hBD : (List.range (E.length - 1)).map (adjSim E)
        = (List.range' 1 (E.length - 1)).map (windowSim E 1) := by
      rw [List.range'_eq_map_range, List.map_map]
      apply List.map_congr_left
      intro j hj
      simp only [Function.comp_apply]
      rw [show 1 + j = j + 1 by omega, hsim j (List.mem_range.mp hj)]
    rw [hAC, hBD]

/-- Witness for C9 at a concrete input. -/
theorem adjacent_eq_windowed_one_witness :
    (∀ v ∈ [[(1 : ℝ), 0], [1, 0], [0, 1]], v.length = 2) ∧
      detect_topic_boundaries [[(1 : ℝ), 0], [1, 0], [0, 1]] (1 / 2)
        = detect_topic_boundaries_windowed [[(1 : ℝ), 0], [1, 0], [0, 1]] (1 / 2) 1 := by
  have hlen : ∀ v ∈ [[(1 : ℝ), 0], [1, 0], [0, 1]], v.length = 2 := by
    intro v hv
    simp only [List.mem_cons, List.not_mem_nil, or_false] at hv
    rcases hv with rfl | rfl | rfl <;> rfl
  exact ⟨hlen, adjacent_eq_windowed_one [[(1 : ℝ), 0], [1, 0], [0, 1]] (1 / 2) 2 hlen⟩

lemma zip_self_map_mul (v : List ℝ) :
    (v.zip v).map (fun p => p.1 * p.2) = v.map (fun x => x * x) := by
  induction v with
  | nil => rfl
  | cons a l ih => simp only [List.zip_cons_cons, List.map_cons, ih]

lemma cosSpec_self (v : List ℝ) (hv : normSq v ≠ 0) : cosSpec v v = 1 := by
  unfold cosSpec
  rw [if_neg (by
    rw [not_or, sqrt_normSq_eq_zero_iff]
    exact ⟨hv, hv⟩)]
  unfold dotProduct
  rw [zip_self_map_mul, Real.mul_self_sqrt (normSq_nonneg v)]
  exact div_self hv

lemma cosSpec_zero_self : cosSpec [(0 : ℝ)] [0] = 0 := by
  have h0 : Real.sqrt (normSq [(0 : ℝ)]) = 0 := by
    rw [sqrt_normSq_eq_zero_iff]
    simp [normSq]
  unfold cosSpec
  rw [if_pos (Or.inl h0)]

lemma average_embedding_replicate (k : ℕ) (hk : 1 ≤ k) (v : List ℝ) :
    average_embedding (List.replicate k v) = v := by
  match k, hk with
  | 1, _ => rfl
  | (n + 2), _ =>
    rw [average_embedding_eq_meanVec v.length _
      (by rw [← List.length_pos, List.length_replicate]; omega)
      (fun u hu => by rw [List.eq_of_mem_replicate hu])]
    unfold meanVec
    calc (List.range v.length).map
          (fun j => ((List.replicate (n + 2) v).map (fun u => u.getD j 0)).sum
            / ((List.replicate (n + 2) v).length : ℝ))
        = (List.range v.length).map (fun j => v.getD j 0) := by
          apply List.map_congr_left
          intro j _
          rw [List.map_replicate, List.sum_replicate, nsmul_eq_mul, List.length_replicate,
            mul_div_cancel_left₀ _ (by positivity : ((n + 2 : ℕ) : ℝ) ≠ 0)]
      _ = v := map_getD_range v

lemma windowSim_replicate (n w i : ℕ) (v : List ℝ) (hw : 1 ≤ w) (h1 : 1 ≤ i) (h2 : i < n) :
    windowSim (List.replicate n v) w i = cosSpec v v := by
  unfold windowSim
  rw [List.length_replicate, List.take_replicate, List.drop_replicate,
    List.take_replicate, List.drop_replicate,
    average_embedding_replicate _ (by omega) v, average_embedding_replicate _ (by omega) v]

/-- C6 fails as stated: five identical ZERO embeddings at threshold
0.20 make the windowed detector mark every candidate index as a
boundary (similarity `0.0 < 0.20` everywhere), rather than returning
zero boundaries. -/
theorem scenario_a_counterexample :
    detect_topic_boundaries_windowed (List.replicate 5 [(0 : ℝ)]) (0.20) 3
        = .ok ([1, 2, 3, 4], [0, 0, 0, 0]) ∧
      ¬ ∃ sims, detect_topic_boundaries_windowed (List.replicate 5 [(0 : ℝ)]) (0.20) 3
          = .ok ([], sims) := by
  have hd : ∀ u ∈ List.replicate 5 [(0 : ℝ)], u.length = 1 := by
    intro u hu
    rw [List.eq_of_mem_replicate hu]
    rfl
  have hchar := detect_topic_boundaries_windowed_eq (List.replicate 5 [(0 : ℝ)]) (0.20) 3 1 hd
    (by simp)
  have hws : ∀ i, 1 ≤ i → i < 5 → windowSim (List.replicate 5 [(0 : ℝ)]) 3 i = 0 := by
    intro i h1 h2
    rw [windowSim_replicate 5 3 i [(0 : ℝ)] (by omega) h1 h2]
    exact cosSpec_zero_self
  have hr : List.range' 1 ((List.replicate 5 [(0 : ℝ)]).length - 1) = [1, 2, 3, 4] := rfl
  have heq : detect_topic_boundaries_windowed (List.replicate 5 [(0 : ℝ)]) (0.20) 3
      = .ok ([1, 2, 3, 4], [0, 0, 0, 0]) := by
    have hlt : ((0 : ℝ) < 0.20) := by norm_num
    have e1 := hws 1 (by omega) (by omega)
    have e2 := hws 2 (by omega) (by omega)
    have e3 := hws 3 (by omega) (by omega)
    have e4 := hws 4 (by omega) (by omega)
    have hfil : List.filter (fun i => decide (windowSim (List.replicate 5 [(0 : ℝ)]) 3 i < 0.20))
        [1, 2, 3, 4] = [1, 2, 3, 4] := by
      rw [List.filter_eq_self]
      intro a ha
      have h1a : 1 ≤ a ∧ a < 5 := by
        simp only [List.mem_cons, List.not_mem_nil, or_false] at ha
        rcases ha with rfl | rfl | rfl | rfl <;> omega
      rw [hws a h1a.1 h1a.2]
      exact decide_eq_true hlt
    have hmap : List.map (windowSim (List.replicate 5 [(0 : ℝ)]) 3) [1, 2, 3, 4]
        = [0, 0, 0, 0] := by
      simp only [List.map_cons, List.map_nil, e1, e2, e3, e4]
    rw [hchar, hr, hfil, hmap]
  refine ⟨heq, ?_⟩
  rintro ⟨sims, hs⟩
  rw [heq] at hs
  simp at hs

lemma buildLoop_no_boundaries (sims : List ℝ) :
    ∀ (l : List Sentence) (i : ℕ) (cur_sents : List Sentence) (cur_words : List Word),
      buildLoop [] sims l i [] cur_sents cur_words 0 =
        if (cur_sents ++ l).isEmpty then []
        else [mkPara 0 (cur_sents ++ l) (cur_words ++ (l.map Sentence.words).flatten) true 1]
  | [], i, cur, curw => by
    simp only [buildLoop, List.append_nil, List.map_nil, List.flatten_nil]
    split
    · rfl
    · rfl
  | s :: rest, i, cur, curw => by
    rw [buildLoop]
    rw [if_neg (by simp)]
    rw [buildLoop_no_boundaries sims rest (i + 1) (cur ++ [s]) (curw ++ s.words)]
    have h1 : (cur ++ [s]) ++ rest = cur ++ (s :: rest) := by simp
    have h2 : ((cur ++ [s]) ++ rest).isEmpty = (cur ++ s :: rest).isEmpty := by rw [h1]
    have h3 : (curw ++ s.words) ++ (rest.map Sentence.words).flatten
        = curw ++ ((s :: rest).map Sentence.words).flatten := by simp
    rw [h2, h1, h3]

lemma build_no_boundaries (sents : List Sentence) (sims : List ℝ) (hne : sents ≠ []) :
    build_paragraphs_from_sentences sents [] sims =
      [mkPara 0 sents ((sents.map Sentence.words).flatten) true 1] := by
  unfold build_paragraphs_from_sentences
  rw [if_neg (by simpa using hne)]
  rw [buildLoop_no_boundaries sims sents 0 [] []]
  rw [if_neg (by simpa using hne)]
  simp [markFirstTopicStart, mkPara]

/-- C6 amended: for five sentences whose embedding vectors are all
identical AND OF NONZERO NORM, windowed detection at threshold 0.20
returns zero boundaries, and building paragraphs from those sentences
and boundaries yields exactly one paragraph containing all five
sentences. -/
theorem scenario_a_amended (v : List ℝ) (sents : List Sentence) (hv : normSq v ≠ 0)
    (hs : sents.length = 5) :
    ∃ sims, detect_topic_boundaries_windowed (List.replicate 5 v) (0.20) 3 = .ok ([], sims) ∧
      (build_paragraphs_from_sentences sents [] sims).length = 1 ∧
      ∀ p ∈ build_paragraphs_from_sentences sents [] sims,
        p.sentenceCount = 5 ∧ p.words = (sents.map Sentence.words).flatten ∧
          p.text = joinSpace (sents.map Sentence.text) := by
  have hd : ∀ u ∈ List.replicate 5 v, u.length = v.length :=
    fun u hu => by rw [List.eq_of_mem_replicate hu]
  have hchar := detect_topic_boundaries_windowed_eq (List.replicate 5 v) (0.20) 3 v.length hd
    (by simp)
  have hws : ∀ i ∈ List.range' 1 ((List.replicate 5 v).length - 1),
      windowSim (List.replicate 5 v) 3 i = 1 := by
    intro i hi
    obtain ⟨h1, h2⟩ := List.mem_range'_1.mp hi
    rw [List.length_replicate] at h2
    rw [windowSim_replicate 5 3 i v (by omega) h1 (by omega)]
    exact cosSpec_self v hv
  have hfilter : (List.range' 1 ((List.replicate 5 v).length - 1)).filter
      (fun i => decide (windowSim (List.replicate 5 v) 3 i < 0.20)) = [] := by
    rw [List.filter_eq_nil_iff]
    intro a ha
    rw [hws a ha]
    norm_num
  have hne : sents ≠ [] := by
    intro h
    rw [h] at hs
    simp at hs
  refine ⟨_, by rw [hchar, hfilter], ?_, ?_⟩
  · rw [build_no_boundaries sents _ hne]
    rfl
  · intro p hp
    rw [build_no_boundaries sents _ hne] at hp
    simp only [List.mem_singleton] at hp
    subst hp
    exact ⟨by simp [mkPara, hs], rfl, rfl⟩

/-- Witness for the amended C6 at a concrete input. -/
theorem scenario_a_amended_witness :
    normSq [(1 : ℝ)] ≠ 0 ∧ (List.replicate 5 (⟨"s", [], 0, 0, 1⟩ : Sentence)).length = 5 ∧
      ∃ sims,
        detect_topic_boundaries_windowed (List.replicate 5 [(1 : ℝ)]) (0.20) 3
            = .ok ([], sims) ∧
        (build_paragraphs_from_sentences (List.replicate 5 ⟨"s", [], 0, 0, 1⟩) [] sims).length
            = 1 ∧
        ∀ p ∈ build_paragraphs_from_sentences (List.replicate 5 ⟨"s", [], 0, 0, 1⟩) [] sims,
          p.sentenceCount = 5 ∧
            p.words = ((List.replicate 5 (⟨"s", [], 0, 0, 1⟩ : Sentence)).map
              Sentence.words).flatten ∧
            p.text = joinSpace ((List.replicate 5 (⟨"s", [], 0, 0, 1⟩ : Sentence)).map
              Sentence.text) := by
  have h1 : normSq [(1 : ℝ)] ≠ 0 := by
    simp [normSq]
  exact ⟨h1, rfl, scenario_a_amended [(1 : ℝ)] (List.replicate 5 ⟨"s", [], 0, 0, 1⟩) h1 rfl⟩

lemma groupLoop_chain (pt : ℚ) :
    ∀ (l cur : List Word),
      cur.Chain' (fun a b => b.start - a.endTime ≤ pt) →
      (∀ x ∈ cur.getLast?, ∀ y ∈ l.head?, y.start - x.endTime ≤ pt) →
      ∀ s ∈ groupLoop pt l cur, s.words.Chain' (fun a b => b.start - a.endTime ≤ pt)
  | [], cur, _, _ => by simp [groupLoop]
  | w :: rest, cur, hchain, hlink => by
    intro s hs
    have hchain2 : (cur ++ [w]).Chain' (fun a b => b.start - a.endTime ≤ pt) := by
      refine List.Chain'.append hchain (List.chain'_singleton w) ?_
      intro x hx y hy
      simp only [List.head?_cons, Option.mem_def, Option.some.injEq] at hy
      subst hy
      exact hlink x hx w (by simp)
    rw [groupLoop] at hs
    split at hs
    · rcases List.mem_cons.mp hs with rfl | hs'
      · exact hchain2
      · exact groupLoop_chain pt rest [] List.chain'_nil (by simp) s hs'
    · rename_i hfalse
      have hf : (endsWithPunct w.word ||
          (rest.head?.elim false (fun next => decide (next.start - w.endTime > pt))) ||
          rest.isEmpty) = false := by
        revert hfalse
        cases endsWithPunct w.word ||
          (rest.head?.elim false (fun next => decide (next.start - w.endTime > pt))) ||
          rest.isEmpty
        · intro _
          rfl
        · intro hfalse
          exact absurd rfl hfalse
      refine groupLoop_chain pt rest (cur ++ [w]) hchain2 ?_ s hs
      intro x hx y hy
      rw [List.getLast?_concat] at hx
      simp only [Option.mem_def, Option.some.injEq] at hx
      subst hx
      match rest, hy with
      | next :: rest', hy =>
        simp only [List.head?_cons, Option.mem_def, Option.some.injEq] at hy
        subst hy
        simp only [Bool.or_eq_false_iff, List.head?_cons, Option.elim_some] at hf
        have := hf.1.2
        simp only [decide_eq_false_iff_not, not_lt] at this
        exact this

/-- C8: a gap strictly greater than the pause threshold between one
word's end and the next word's start always ends the current sentence —
inside any produced sentence consecutive words have gap at most the
threshold — and the word stream "Hello there" then "This is a test"
with a 2.0-second gap at pause threshold 1.5 s yields exactly 2
sentences, split at the gap despite the absence of punctuation. -/
theorem pause_splits_sentences :
    (∀ (ws : List Word) (pt : ℚ) (s : Sentence), s ∈ group_words_into_sentences ws pt →
      s.words.Chain' (fun a b => b.start - a.endTime ≤ pt)) ∧
    group_words_into_sentences
        [⟨"Hello", 0, 1, 1⟩, ⟨"there", 2, 3, 1⟩,
          ⟨"This", 5, 6, 1⟩, ⟨"is", 6, 7, 1⟩, ⟨"a", 7, 8, 1⟩, ⟨"test", 8, 9, 1⟩] (3 / 2) =
      [⟨"Hello there", [⟨"Hello", 0, 1, 1⟩, ⟨"there", 2, 3, 1⟩], 0, 3, 2⟩,
        ⟨"This is a test",
          [⟨"This", 5, 6, 1⟩, ⟨"is", 6, 7, 1⟩, ⟨"a", 7, 8, 1⟩, ⟨"test", 8, 9, 1⟩], 5, 9, 4⟩] := by
  constructor
  · intro ws pt s hs
    unfold group_words_into_sentences at hs
    split at hs
    · cases hs
    · exact groupLoop_chain pt ws [] List.chain'_nil (by simp) s hs
  · have g1 : decide ((2 : ℚ) - 1 > 3 / 2) = false := by norm_num
    have g2 : decide ((5 : ℚ) - 3 > 3 / 2) = true := by norm_num
    have g3 : decide ((6 : ℚ) - 6 > 3 / 2) = false := by norm_num
    have g4 : decide ((7 : ℚ) - 7 > 3 / 2) = false := by norm_num
    have g5 : decide ((8 : ℚ) - 8 > 3 / 2) = false := by norm_num
    have e1 : endsWithPunct "Hello" = false := by decide
    have e2 : endsWithPunct "there" = false := by decide
    have e3 : endsWithPunct "This" = false := by decide
    have e4 : endsWithPunct "is" = false := by decide
    have e5 : endsWithPunct "a" = false := by decide
    have e6 : endsWithPunct "test" = false := by decide
    simp only [group_words_into_sentences, groupLoop, List.isEmpty_cons, List.isEmpty_nil,
      List.head?_cons, List.head?_nil, Option.elim_some, Option.elim_none,
      g1, g2, g3, g4, g5, e1, e2, e3, e4, e5, e6,
      Bool.false_or, Bool.or_false, Bool.or_true, Bool.true_or, Bool.false_eq_true,
      if_false, if_true, Bool.or_self]
    simp only [mkSentence, joinSpace, List.map_cons, List.map_nil, List.nil_append,
      List.cons_append, List.headI, List.getLastD, List.length_cons, List.length_nil]
    rfl

/-- Witness for C8's universally quantified part at a concrete input. -/
theorem pause_splits_sentences_witness :
    (⟨"Hello there", [⟨"Hello", 0, 1, 1⟩, ⟨"there", 2, 3, 1⟩], 0, 3, 2⟩ : Sentence).words.Chain'
      (fun a b => b.start - a.endTime ≤ (3 / 2 : ℚ)) := by
  apply pause_splits_sentences.1
    [⟨"Hello", 0, 1, 1⟩, ⟨"there", 2, 3, 1⟩,
      ⟨"This", 5, 6, 1⟩, ⟨"is", 6, 7, 1⟩, ⟨"a", 7, 8, 1⟩, ⟨"test", 8, 9, 1⟩] (3 / 2)
  rw [pause_splits_sentences.2]
  exact List.mem_cons_self _ _

lemma joinSpace_cons_of_ne_nil (s : String) (l : List String) (hl : l ≠ []) :
    joinSpace (s :: l) = s ++ " " ++ joinSpace l := by
  cases l with
  | nil => exact absurd rfl hl
  | cons a as => rfl

lemma joinSpace_fuse (xs : List String) (a b : String) (ys : List String) :
    joinSpace (xs ++ (a ++ " " ++ b) :: ys) = joinSpace (xs ++ a :: b :: ys) := by
  induction xs with
  | nil =>
    cases ys with
    | nil => rfl
    | cons c cs =>
      show joinSpace ((a ++ " " ++ b) :: c :: cs) = joinSpace (a :: b :: c :: cs)
      rw [joinSpace_cons_of_ne_nil _ _ (by simp),
        joinSpace_cons_of_ne_nil a (b :: c :: cs) (by simp),
        joinSpace_cons_of_ne_nil b (c :: cs) (by simp)]
      simp [String.append_assoc]
  | cons x xs ih =>
    show joinSpace (x :: (xs ++ (a ++ " " ++ b) :: ys)) = joinSpace (x :: (xs ++ a :: b :: ys))
    rw [joinSpace_cons_of_ne_nil x _ (by simp), joinSpace_cons_of_ne_nil x _ (by simp), ih]

lemma mergeLoop_prev_step (min_words : ℕ) (merged : List Sentence) (current : Sentence)
    (rest : List Sentence) (h : current.wordCount < min_words) (prev : Sentence)
    (hl : merged.getLast? = some prev) :
    mergeLoop min_words merged (current :: rest)
      = mergeLoop min_words (merged.dropLast ++ [mergePrev prev current]) rest := by
  rw [mergeLoop, if_pos h, hl]
  rfl

lemma mergeLoop_next_step (min_words : ℕ) (merged : List Sentence) (current : Sentence)
    (rest : List Sentence) (h : current.wordCount < min_words)
    (hl : merged.getLast? = none) (hr : rest.isEmpty = false) :
    mergeLoop min_words merged (current :: rest)
      = mergeLoop min_words merged (mergeNext current rest.headI :: rest.tail) := by
  rw [mergeLoop, if_pos h, hl]
  show (if rest.isEmpty then merged ++ [current]
    else mergeLoop min_words merged (mergeNext current rest.headI :: rest.tail)) = _
  rw [hr]
  rfl

lemma mergeLoop_keep_step (min_words : ℕ) (merged : List Sentence) (current : Sentence)
    (h : current.wordCount < min_words) (hl : merged.getLast? = none) :
    mergeLoop min_words merged [current] = merged ++ [current] := by
  rw [mergeLoop, if_pos h, hl]
  rfl

lemma mergeLoop_long_step (min_words : ℕ) (merged : List Sentence) (current : Sentence)
    (rest : List Sentence) (h : ¬ current.wordCount < min_words) :
    mergeLoop min_words merged (current :: rest)
      = mergeLoop min_words (merged ++ [current]) rest := by
  rw [mergeLoop, if_neg h]

lemma mergeLoop_conserves (min_words : ℕ) (acc l : List Sentence) :
    ((mergeLoop min_words acc l).map Sentence.words).flatten
        = (acc.map Sentence.words).flatten ++ (l.map Sentence.words).flatten ∧
      joinSpace ((mergeLoop min_words acc l).map Sentence.text)
        = joinSpace (acc.map Sentence.text ++ l.map Sentence.text) ∧
      ((acc ≠ [] ∨ l ≠ []) → mergeLoop min_words acc l ≠ []) := by
  induction acc, l using mergeLoop.induct min_words with
  | case1 merged =>
    refine ⟨by simp [mergeLoop], by simp [mergeLoop], ?_⟩
    rintro (hm | hm)
    · simpa [mergeLoop] using hm
    · exact absurd rfl hm
  | case2 merged current rest hshort ihnext ihprev =>
    rcases hget : merged.getLast? with _ | prev
    · rcases hrest : rest with _ | ⟨r, rs⟩
      · rw [mergeLoop_keep_step min_words merged current hshort hget]
        refine ⟨by simp, by simp, fun _ => by simp⟩
      · subst hrest
        rw [mergeLoop_next_step min_words merged current (r :: rs) hshort hget rfl]
        obtain ⟨ihw, iht, ihne⟩ := ihnext (by simp)
        dsimp only [List.headI, List.tail_cons] at ihw iht ihne ⊢
        refine ⟨?_, ?_, fun _ => ihne (Or.inr (by simp))⟩
        · rw [ihw]
          simp [mergeNext, List.append_assoc]
        · rw [iht]
          have := joinSpace_fuse (merged.map Sentence.text) current.text r.text
            (rs.map Sentence.text)
          simpa [mergeNext] using this
    · rw [mergeLoop_prev_step min_words merged current rest hshort prev hget]
      obtain ⟨ihw, iht, ihne⟩ := ihprev prev
      have hdec : merged.dropLast ++ [prev] = merged :=
        List.dropLast_append_getLast? prev hget
      refine ⟨?_, ?_, fun _ => ihne (Or.inl (by simp))⟩
      · rw [ihw, ← hdec]
        simp [mergePrev, List.append_assoc]
      · rw [iht, ← hdec]
        have := joinSpace_fuse (merged.dropLast.map Sentence.text) prev.text current.text
          (rest.map Sentence.text)
        simpa [mergePrev] using this
  | case3 merged current rest hlong ih =>
    rw [mergeLoop_long_step min_words merged current rest hlong]
    obtain ⟨ihw, iht, ihne⟩ := ih
    refine ⟨?_, ?_, fun _ => ihne (Or.inl (by simp))⟩
    · rw [ihw]
      simp [List.append_assoc]
    · rw [iht]
      have : (merged ++ [current]).map Sentence.text ++ rest.map Sentence.text
          = merged.map Sentence.text ++ current.text :: rest.map Sentence.text := by
        simp
      rw [this]
      rfl

/-- C5: for every non-empty sentence list, `merge_short_sentences`
returns a non-empty list; no sentence's content is dropped — the
concatenation of the word lists and the space-joined text are both
conserved (short sentences migrate into a neighbour; a single short
sentence with no neighbour is kept) — and the total word count over the
output equals the total word count over the input. -/
theorem merge_short_sentences_conserves (sentences : List Sentence) (min_words : ℕ)
    (hne : sentences ≠ []) :
    merge_short_sentences sentences min_words ≠ [] ∧
      ((merge_short_sentences sentences min_words).map Sentence.words).flatten
        = (sentences.map Sentence.words).flatten ∧
      joinSpace ((merge_short_sentences sentences min_words).map Sentence.text)
        = joinSpace (sentences.map Sentence.text) ∧
      ((merge_short_sentences sentences min_words).map (fun s => s.words.length)).sum
        = (sentences.map (fun s => s.words.length)).sum := by
  have hsum : ∀ m : List Sentence,
      (m.map (fun s => s.words.length)).sum = ((m.map Sentence.words).flatten).length := by
    intro m
    rw [List.length_flatten, List.map_map]
    rfl
  unfold merge_short_sentences
  split
  · exact ⟨hne, rfl, rfl, rfl⟩
  · obtain ⟨hw, ht, hnemp⟩ := mergeLoop_conserves min_words [] sentences
    refine ⟨hnemp (Or.inr hne), by simpa using hw, by simpa using ht, ?_⟩
    rw [hsum, hsum, hw]
    simp

/-- Witness for C5 at a concrete input: a 1-word sentence after a
5-word sentence, minimum 5 words. -/
theorem merge_short_sentences_conserves_witness :
    ([⟨"a b c d e", [⟨"a", 0, 1, 1⟩, ⟨"b", 1, 2, 1⟩, ⟨"c", 2, 3, 1⟩, ⟨"d", 3, 4, 1⟩,
        ⟨"e", 4, 5, 1⟩], 0, 5, 5⟩, ⟨"x", [⟨"x", 5, 6, 1⟩], 5, 6, 1⟩] : List Sentence) ≠ [] ∧
      (merge_short_sentences
          [⟨"a b c d e", [⟨"a", 0, 1, 1⟩, ⟨"b", 1, 2, 1⟩, ⟨"c", 2, 3, 1⟩, ⟨"d", 3, 4, 1⟩,
            ⟨"e", 4, 5, 1⟩], 0, 5, 5⟩, ⟨"x", [⟨"x", 5, 6, 1⟩], 5, 6, 1⟩] 5 ≠ [] ∧
        ((merge_short_sentences
            [⟨"a b c d e", [⟨"a", 0, 1, 1⟩, ⟨"b", 1, 2, 1⟩, ⟨"c", 2, 3, 1⟩, ⟨"d", 3, 4, 1⟩,
              ⟨"e", 4, 5, 1⟩], 0, 5, 5⟩, ⟨"x", [⟨"x", 5, 6, 1⟩], 5, 6, 1⟩] 5).map
            Sentence.words).flatten
          = (([⟨"a b c d e", [⟨"a", 0, 1, 1⟩, ⟨"b", 1, 2, 1⟩, ⟨"c", 2, 3, 1⟩, ⟨"d", 3, 4, 1⟩,
              ⟨"e", 4, 5, 1⟩], 0, 5, 5⟩, ⟨"x", [⟨"x", 5, 6, 1⟩], 5, 6, 1⟩] :
              List Sentence).map Sentence.words).flatten ∧
        joinSpace ((merge_short_sentences
            [⟨"a b c d e", [⟨"a", 0, 1, 1⟩, ⟨"b", 1, 2, 1⟩, ⟨"c", 2, 3, 1⟩, ⟨"d", 3, 4, 1⟩,
              ⟨"e", 4, 5, 1⟩], 0, 5, 5⟩, ⟨"x", [⟨"x", 5, 6, 1⟩], 5, 6, 1⟩] 5).map
            Sentence.text)
          = joinSpace (([⟨"a b c d e", [⟨"a", 0, 1, 1⟩, ⟨"b", 1, 2, 1⟩, ⟨"c", 2, 3, 1⟩,
              ⟨"d", 3, 4, 1⟩, ⟨"e", 4, 5, 1⟩], 0, 5, 5⟩, ⟨"x", [⟨"x", 5, 6, 1⟩], 5, 6, 1⟩] :
              List Sentence).map Sentence.text) ∧
        ((merge_short_sentences
            [⟨"a b c d e", [⟨"a", 0, 1, 1⟩, ⟨"b", 1, 2, 1⟩, ⟨"c", 2, 3, 1⟩, ⟨"d", 3, 4, 1⟩,
              ⟨"e", 4, 5, 1⟩], 0, 5, 5⟩, ⟨"x", [⟨"x", 5, 6, 1⟩], 5, 6, 1⟩] 5).map
            (fun s => s.words.length)).sum
          = (([⟨"a b c d e", [⟨"a", 0, 1, 1⟩, ⟨"b", 1, 2, 1⟩, ⟨"c", 2, 3, 1⟩, ⟨"d", 3, 4, 1⟩,
              ⟨"e", 4, 5, 1⟩], 0, 5, 5⟩, ⟨"x", [⟨"x", 5, 6, 1⟩], 5, 6, 1⟩] :
              List Sentence).map (fun s => s.words.length)).sum) := by
  refine ⟨by simp, merge_short_sentences_conserves _ 5 (by simp)⟩

lemma joinSpace_fuse_block (A B C : List String) (hB : B ≠ []) :
    joinSpace (A ++ joinSpace B :: C) = joinSpace (A ++ B ++ C) := by
  induction B generalizing A with
  | nil => exact absurd rfl hB
  | cons b Bs ih =>
    cases Bs with
    | nil => simp [joinSpace]
    | cons b2 Bs2 =>
      have h1 : joinSpace (b :: b2 :: Bs2) = b ++ " " ++ joinSpace (b2 :: Bs2) := rfl
      rw [h1, joinSpace_fuse A b (joinSpace (b2 :: Bs2)) C]
      have h2 : A ++ b :: joinSpace (b2 :: Bs2) :: C
          = (A ++ [b]) ++ joinSpace (b2 :: Bs2) :: C := by simp
      rw [h2, ih (A ++ [b]) (by simp)]
      congr 1
      simp

lemma buildLoop_invariant (bset : List ℕ) (sims : List ℝ) :
    ∀ (l : List Sentence) (paras : List Paragraph) (cur_s : List Sentence) (cur_w : List Word)
      (i pidx : ℕ),
      pidx = paras.length →
      i = (paras.map Paragraph.sentenceCount).sum + cur_s.length →
      cur_w = (cur_s.map Sentence.words).flatten →
      (∀ p ∈ paras, p.isTopicStart = true) →
      (paras ≠ [] → cur_s ≠ [] ∧ (paras.map Paragraph.sentenceCount).sum ∈ bset) →
      (∀ k, 0 < k → k < paras.length →
        ((paras.take k).map Paragraph.sentenceCount).sum ∈ bset) →
      ((buildLoop bset sims l i paras cur_s cur_w pidx).map Paragraph.words).flatten
          = (paras.map Paragraph.words).flatten ++ cur_w ++ (l.map Sentence.words).flatten ∧
        joinSpace ((buildLoop bset sims l i paras cur_s cur_w pidx).map Paragraph.text)
          = joinSpace (paras.map Paragraph.text ++ cur_s.map Sentence.text
              ++ l.map Sentence.text) ∧
        ((buildLoop bset sims l i paras cur_s cur_w pidx).map Paragraph.sentenceCount).sum
          = (paras.map Paragraph.sentenceCount).sum + cur_s.length + l.length ∧
        (∀ p ∈ buildLoop bset sims l i paras cur_s cur_w pidx, p.isTopicStart = true) ∧
        (∀ k, 0 < k → k < (buildLoop bset sims l i paras cur_s cur_w pidx).length →
          (((buildLoop bset sims l i paras cur_s cur_w pidx).take k).map
            Paragraph.sentenceCount).sum ∈ bset) ∧
        ((paras ≠ [] ∨ cur_s ≠ [] ∨ l ≠ []) →
          buildLoop bset sims l i paras cur_s cur_w pidx ≠ [])
  | [], paras, cur_s, cur_w, i, pidx => fun h1 h2 h3 h4 h5 h6 => by
    rcases cur_s with _ | ⟨c, cs⟩
    · have hres : buildLoop bset sims [] i paras [] cur_w pidx = paras := by
        rw [buildLoop]
        rfl
      rw [hres]
      have hw : cur_w = [] := by simpa using h3
      subst hw
      refine ⟨by simp, by simp, by simp, h4, h6, ?_⟩
      rintro (hp | hp | hp)
      · exact hp
      · exact absurd rfl hp
      · exact absurd rfl hp
    · have hres : buildLoop bset sims [] i paras (c :: cs) cur_w pidx
        = paras ++ [mkPara pidx (c :: cs) cur_w
            (if 0 < pidx then (paras.isEmpty || decide ((i - (c :: cs).length) ∈ bset))
              else true) 1] := by
        rw [buildLoop]
        rfl
      rw [hres]
      refine ⟨by simp [mkPara], ?_, by simp [mkPara], ?_, ?_, fun _ => by simp⟩
      · have h7 : (paras ++ [mkPara pidx (c :: cs) cur_w
            (if 0 < pidx then (paras.isEmpty || decide ((i - (c :: cs).length) ∈ bset))
              else true) 1]).map Paragraph.text
            = paras.map Paragraph.text ++ joinSpace ((c :: cs).map Sentence.text) :: [] := by
          simp [mkPara]
        rw [h7, joinSpace_fuse_block (paras.map Paragraph.text)
          ((c :: cs).map Sentence.text) [] (by simp)]
        simp
      · intro p hp
        rcases List.mem_append.mp hp with hp | hp
        · exact h4 p hp
        · simp only [List.mem_singleton] at hp
          subst hp
          show (if 0 < pidx then (paras.isEmpty || decide ((i - (c :: cs).length) ∈ bset))
            else true) = true
          rcases Nat.eq_zero_or_pos pidx with hz | hz
          · rw [if_neg (by omega)]
          · rw [if_pos hz]
            have hpne : paras ≠ [] := by
              intro hcon
              rw [hcon] at h1
              simp at h1
              omega
            have hmem := (h5 hpne).2
            have hsub : i - (c :: cs).length = (paras.map Paragraph.sentenceCount).sum := by
              omega
            rw [hsub]
            simp [hmem]
      · intro k hk0 hklen
        simp only [List.length_append, List.length_cons, List.length_nil] at hklen
        rcases Nat.lt_or_ge k paras.length with hlt | hge
        · rw [List.take_append_of_le_length (by omega)]
          exact h6 k hk0 hlt
        · have hke : k = paras.length := by omega
          subst hke
          rw [List.take_left]
          have hpne : paras ≠ [] := by
            intro hcon
            rw [hcon] at hk0
            simp at hk0
          exact (h5 hpne).2
  | s :: rest, paras, cur_s, cur_w, i, pidx => fun h1 h2 h3 h4 h5 h6 => by
    by_cases hcond : i ∈ bset ∧ ¬ cur_s.isEmpty
    · have hres : buildLoop bset sims (s :: rest) i paras cur_s cur_w pidx
          = buildLoop bset sims rest (i + 1)
              (paras ++ [mkPara pidx cur_s cur_w (decide (pidx = 0 ∨ 0 < pidx))
                (if 0 < i ∧ i - 1 < sims.length then sims.getD (i - 1) 0 else 1)])
              [s] s.words (pidx + 1) := by
        rw [buildLoop, if_pos hcond]
      have hcs : cur_s ≠ [] := by
        have := hcond.2
        simpa [List.isEmpty_iff] using this
      have hscount : ((paras ++ [mkPara pidx cur_s cur_w (decide (pidx = 0 ∨ 0 < pidx))
          (if 0 < i ∧ i - 1 < sims.length then sims.getD (i - 1) 0 else 1)]).map
            Paragraph.sentenceCount).sum
          = (paras.map Paragraph.sentenceCount).sum + cur_s.length := by
        simp [mkPara]
      obtain ⟨ihw, iht, ihc, ihf, ihb, ihne⟩ := buildLoop_invariant bset sims rest
        (paras ++ [mkPara pidx cur_s cur_w (decide (pidx = 0 ∨ 0 < pidx))
          (if 0 < i ∧ i - 1 < sims.length then sims.getD (i - 1) 0 else 1)])
        [s] s.words (i + 1) (pidx + 1)
        (by simp [h1])
        (by rw [hscount]; simp; omega)
        (by simp)
        (by
          intro p hp
          rcases List.mem_append.mp hp with hp | hp
          · exact h4 p hp
          · simp only [List.mem_singleton] at hp
            subst hp
            show decide (pidx = 0 ∨ 0 < pidx) = true
            simp only [decide_eq_true_eq]
            omega)
        (by
          intro _
          refine ⟨by simp, ?_⟩
          rw [hscount]
          have : (paras.map Paragraph.sentenceCount).sum + cur_s.length = i := by omega
          rw [this]
          exact hcond.1)
        (by
          intro k hk0 hklen
          simp only [List.length_append, List.length_cons, List.length_nil] at hklen
          rcases Nat.lt_or_ge k paras.length with hlt | hge
          · rw [List.take_append_of_le_length (by omega)]
            exact h6 k hk0 hlt
          · have hke : k = paras.length := by omega
            subst hke
            rw [List.take_left]
            have hpne : paras ≠ [] := by
              intro hcon
              rw [hcon] at hk0
              simp at hk0
            exact (h5 hpne).2)
      rw [hres]
      refine ⟨?_, ?_, ?_, ihf, ihb, fun _ => ihne (Or.inr (Or.inl (by simp)))⟩
      · rw [ihw]
        simp [mkPara, List.append_assoc]
      · rw [iht]
        have h7 : (paras ++ [mkPara pidx cur_s cur_w (decide (pidx = 0 ∨ 0 < pidx))
            (if 0 < i ∧ i - 1 < sims.length then sims.getD (i - 1) 0 else 1)]).map
              Paragraph.text ++ [s].map Sentence.text ++ rest.map Sentence.text
            = paras.map Paragraph.text ++ joinSpace (cur_s.map Sentence.text)
              :: (s.text :: rest.map Sentence.text) := by
          simp [mkPara]
        rw [h7, joinSpace_fuse_block (paras.map Paragraph.text) (cur_s.map Sentence.text)
          (s.text :: rest.map Sentence.text) (by simpa using hcs)]
        simp
      · rw [ihc, hscount]
        simp only [List.length_cons, List.length_nil, List.length_singleton]
        try omega
    · have hres : buildLoop bset sims (s :: rest) i paras cur_s cur_w pidx
          = buildLoop bset sims rest (i + 1) paras (cur_s ++ [s]) (cur_w ++ s.words) pidx := by
        rw [buildLoop, if_neg hcond]
      obtain ⟨ihw, iht, ihc, ihf, ihb, ihne⟩ := buildLoop_invariant bset sims rest
        paras (cur_s ++ [s]) (cur_w ++ s.words) (i + 1) pidx
        h1
        (by simp only [List.length_append, List.length_cons, List.length_nil]; omega)
        (by simp [h3])
        h4
        (fun hp => ⟨by simp, (h5 hp).2⟩)
        h6
      rw [hres]
      refine ⟨?_, ?_, ?_, ihf, ihb, fun _ => ihne (Or.inr (Or.inl (by simp)))⟩
      · rw [ihw]
        simp [List.append_assoc]
      · rw [iht]
        simp
      · rw [ihc]
        simp only [List.length_append, List.length_cons, List.length_nil]
        omega

lemma markFirst_map_words (l : List Paragraph) :
    (markFirstTopicStart l).map Paragraph.words = l.map Paragraph.words := by
  cases l <;> rfl

lemma markFirst_map_text (l : List Paragraph) :
    (markFirstTopicStart l).map Paragraph.text = l.map Paragraph.text := by
  cases l <;> rfl

lemma markFirst_map_sentenceCount (l : List Paragraph) :
    (markFirstTopicStart l).map Paragraph.sentenceCount = l.map Paragraph.sentenceCount := by
  cases l <;> rfl

lemma markFirst_length (l : List Paragraph) :
    (markFirstTopicStart l).length = l.length := by
  cases l <;> rfl

lemma markFirst_ne_nil (l : List Paragraph) (h : l ≠ []) : markFirstTopicStart l ≠ [] := by
  cases l with
  | nil => exact absurd rfl h
  | cons p ps => simp [markFirstTopicStart]

lemma markFirst_flags (l : List Paragraph) (h : ∀ p ∈ l, p.isTopicStart = true) :
    ∀ p ∈ markFirstTopicStart l, p.isTopicStart = true := by
  cases l with
  | nil => simp [markFirstTopicStart]
  | cons p ps =>
    intro q hq
    rcases List.mem_cons.mp hq with rfl | hq
    · rfl
    · exact h q (List.mem_cons_of_mem p hq)

lemma markFirst_headI_flag (l : List Paragraph) (h : l ≠ []) :
    (markFirstTopicStart l).headI.isTopicStart = true := by
  cases l with
  | nil => exact absurd rfl h
  | cons p ps => rfl

lemma markFirst_take_map_scount (l : List Paragraph) (k : ℕ) :
    ((markFirstTopicStart l).take k).map Paragraph.sentenceCount
      = (l.take k).map Paragraph.sentenceCount := by
  rw [List.map_take, List.map_take, markFirst_map_sentenceCount]

/-- C2: for every sentence sequence and boundary index list, the
paragraphs of `build_paragraphs_from_sentences` partition the input
sequence: the concatenation of the paragraphs' word lists equals the
concatenation of the sentences' word lists, the space-joined paragraph
texts equal the space-joined sentence texts, the `sentenceCount` values
sum to the number of input sentences, and for a non-empty input the
first paragraph has `isTopicStart = true`. -/
theorem build_paragraphs_partition (sentences : List Sentence) (boundaries : List ℕ)
    (similarities : List ℝ) :
    ((build_paragraphs_from_sentences sentences boundaries similarities).map
        Paragraph.words).flatten = (sentences.map Sentence.words).flatten ∧
      joinSpace ((build_paragraphs_from_sentences sentences boundaries similarities).map
        Paragraph.text) = joinSpace (sentences.map Sentence.text) ∧
      ((build_paragraphs_from_sentences sentences boundaries similarities).map
        Paragraph.sentenceCount).sum = sentences.length ∧
      (sentences ≠ [] →
        build_paragraphs_from_sentences sentences boundaries similarities ≠ [] ∧
          (build_paragraphs_from_sentences sentences boundaries
            similarities).headI.isTopicStart = true) := by
  by_cases hemp : sentences.isEmpty
  · have hs : sentences = [] := List.isEmpty_iff.mp hemp
    subst hs
    exact ⟨rfl, rfl, rfl, fun h => absurd rfl h⟩
  · have heq : build_paragraphs_from_sentences sentences boundaries similarities
        = markFirstTopicStart (buildLoop boundaries similarities sentences 0 [] [] [] 0) := by
      unfold build_paragraphs_from_sentences
      rw [if_neg hemp]
    have hne : sentences ≠ [] := by simpa [List.isEmpty_iff] using hemp
    obtain ⟨hw, ht, hc, hf, hb, hnemp⟩ := buildLoop_invariant boundaries similarities
      sentences [] [] [] 0 0 rfl rfl rfl (by simp) (fun h => absurd rfl h) (by simp)
    rw [heq]
    refine ⟨?_, ?_, ?_, fun _ => ⟨?_, ?_⟩⟩
    · rw [markFirst_map_words, hw]
      simp
    · rw [markFirst_map_text, ht]
      simp
    · rw [markFirst_map_sentenceCount, hc]
      simp
    · exact markFirst_ne_nil _ (hnemp (Or.inr (Or.inr hne)))
    · exact markFirst_headI_flag _ (hnemp (Or.inr (Or.inr hne)))

/-- Witness for C2 at a concrete input, discharging the non-emptiness
hypothesis. -/
theorem build_paragraphs_partition_witness :
    ([⟨"hi", [⟨"hi", 0, 1, 1⟩], 0, 1, 1⟩] : List Sentence) ≠ [] ∧
      build_paragraphs_from_sentences [⟨"hi", [⟨"hi", 0, 1, 1⟩], 0, 1, 1⟩] [1] [] ≠ [] ∧
      (build_paragraphs_from_sentences [⟨"hi", [⟨"hi", 0, 1, 1⟩], 0, 1, 1⟩] [1]
        []).headI.isTopicStart = true :=
  ⟨by simp,
    (build_paragraphs_partition [⟨"hi", [⟨"hi", 0, 1, 1⟩], 0, 1, 1⟩] [1] []).2.2.2 (by simp)⟩

/-- C10: every paragraph `build_paragraphs_from_sentences` emits — not
only the first — carries `isTopicStart = true`, and every non-first
paragraph's first sentence index (the sum of the sentence counts of the
preceding paragraphs) lies in the boundary list. -/
theorem all_paragraphs_topic_start (sentences : List Sentence) (boundaries : List ℕ)
    (similarities : List ℝ) :
    (∀ p ∈ build_paragraphs_from_sentences sentences boundaries similarities,
      p.isTopicStart = true) ∧
      ∀ k, 0 < k →
        k < (build_paragraphs_from_sentences sentences boundaries similarities).length →
        (((build_paragraphs_from_sentences sentences boundaries similarities).take k).map
          Paragraph.sentenceCount).sum ∈ boundaries := by
  by_cases hemp : sentences.isEmpty
  · have hs : sentences = [] := List.isEmpty_iff.mp hemp
    subst hs
    constructor
    · intro p hp
      simp [build_paragraphs_from_sentences] at hp
    · intro k hk0 hkl
      simp [build_paragraphs_from_sentences] at hkl
  · have heq : build_paragraphs_from_sentences sentences boundaries similarities
        = markFirstTopicStart (buildLoop boundaries similarities sentences 0 [] [] [] 0) := by
      unfold build_paragraphs_from_sentences
      rw [if_neg hemp]
    obtain ⟨hw, ht, hc, hf, hb, hnemp⟩ := buildLoop_invariant boundaries similarities
      sentences [] [] [] 0 0 rfl rfl rfl (by simp) (fun h => absurd rfl h) (by simp)
    rw [heq]
    refine ⟨markFirst_flags _ hf, ?_⟩
    intro k hk0 hkl
    rw [markFirst_take_map_scount]
    rw [markFirst_length] at hkl
    exact hb k hk0 hkl

/-- Witness for C10 at a concrete input: two sentences, a boundary at
index 1, so the second paragraph starts at sentence index 1 ∈ [1]. -/
theorem all_paragraphs_topic_start_witness :
    (0 : ℕ) < 1 ∧
      1 < (build_paragraphs_from_sentences
        [⟨"a", [], 0, 1, 1⟩, ⟨"b", [], 1, 2, 1⟩] [1] []).length ∧
      (((build_paragraphs_from_sentences
        [⟨"a", [], 0, 1, 1⟩, ⟨"b", [], 1, 2, 1⟩] [1] []).take 1).map
          Paragraph.sentenceCount).sum ∈ [1] := by
  have hlen : (build_paragraphs_from_sentences
      [⟨"a", [], 0, 1, 1⟩, ⟨"b", [], 1, 2, 1⟩] [1] []).length = 2 := rfl
  refine ⟨by omega, by omega, ?_⟩
  exact (all_paragraphs_topic_start [⟨"a", [], 0, 1, 1⟩, ⟨"b", [], 1, 2, 1⟩] [1] []).2
    1 (by omega) (by omega)

lemma embedStep_embeddings (env : EmbedEnv) (acc : EmbedTrace) (seg : String) :
    (embedStep env acc seg).embeddings = acc.embeddings ++ [resolveEmbedding env seg] := by
  unfold embedStep resolveEmbedding
  by_cases hb : isBlankSegment seg
  · rw [if_pos hb, if_pos hb]
  · rw [if_neg hb, if_neg hb]
    rcases hcc : (if env.cache_available then env.cached (env.segment_key seg) else none)
      with _ | e <;> simp only [hcc]

lemma embedStep_provider (env : EmbedEnv) (acc : EmbedTrace) (seg : String) :
    (embedStep env acc seg).provider_calls = acc.provider_calls ∨
      ((embedStep env acc seg).provider_calls = acc.provider_calls ++ [seg] ∧
        isBlankSegment seg = false) := by
  unfold embedStep
  by_cases hb : isBlankSegment seg
  · rw [if_pos hb]
    exact Or.inl rfl
  · rw [if_neg hb]
    rcases hcc : (if env.cache_available then env.cached (env.segment_key seg) else none)
      with _ | e
    · simp only [hcc]
      exact Or.inr ⟨by trivial, by simpa using hb⟩
    · simp only [hcc]
      exact Or.inl (by trivial)

lemma embedStep_lookups (env : EmbedEnv) (acc : EmbedTrace) (seg : String) :
    (embedStep env acc seg).cache_lookups = acc.cache_lookups ∨
      ((embedStep env acc seg).cache_lookups = acc.cache_lookups ++ [env.segment_key seg] ∧
        isBlankSegment seg = false) := by
  unfold embedStep
  by_cases hb : isBlankSegment seg
  · rw [if_pos hb]
    exact Or.inl rfl
  · rw [if_neg hb]
    rcases hcc : (if env.cache_available then env.cached (env.segment_key seg) else none)
      with _ | e
    · simp only [hcc]
      by_cases hca : env.cache_available
      · exact Or.inr ⟨by simp [hca], by simpa using hb⟩
      · exact Or.inl (by simp [hca])
    · simp only [hcc]
      by_cases hca : env.cache_available
      · exact Or.inr ⟨by simp [hca], by simpa using hb⟩
      · exact Or.inl (by simp [hca])

lemma get_embeddings_foldl (env : EmbedEnv) :
    ∀ (segments : List String) (acc : EmbedTrace),
      (segments.foldl (embedStep env) acc).embeddings
          = acc.embeddings ++ segments.map (resolveEmbedding env) ∧
        (∀ t ∈ (segments.foldl (embedStep env) acc).provider_calls,
          t ∈ acc.provider_calls ∨ (t ∈ segments ∧ isBlankSegment t = false)) ∧
        (∀ k ∈ (segments.foldl (embedStep env) acc).cache_lookups,
          k ∈ acc.cache_lookups ∨ ∃ t, t ∈ segments ∧ isBlankSegment t = false
            ∧ k = env.segment_key t)
  | [], acc => by simp
  | seg :: rest, acc => by
    obtain ⟨ihE, ihP, ihC⟩ := get_embeddings_foldl env rest (embedStep env acc seg)
    rw [List.foldl_cons]
    refine ⟨?_, ?_, ?_⟩
    · rw [ihE, embedStep_embeddings]
      simp
    · intro t ht
      rcases ihP t ht with ht' | ht'
      · rcases embedStep_provider env acc seg with hstep | ⟨hstep, hnb⟩
        · rw [hstep] at ht'
          exact Or.inl ht'
        · rw [hstep] at ht'
          rcases List.mem_append.mp ht' with h | h
          · exact Or.inl h
          · simp only [List.mem_singleton] at h
            subst h
            exact Or.inr ⟨List.mem_cons_self _ _, hnb⟩
      · exact Or.inr ⟨List.mem_cons_of_mem _ ht'.1, ht'.2⟩
    · intro k hk
      rcases ihC k hk with hk' | hk'
      · rcases embedStep_lookups env acc seg with hstep | ⟨hstep, hnb⟩
        · rw [hstep] at hk'
          exact Or.inl hk'
        · rw [hstep] at hk'
          rcases List.mem_append.mp hk' with h | h
          · exact Or.inl h
          · simp only [List.mem_singleton] at h
            exact Or.inr ⟨seg, List.mem_cons_self _ _, hnb, h⟩
      · obtain ⟨t, ht1, ht2, ht3⟩ := hk'
        exact Or.inr ⟨t, List.mem_cons_of_mem _ ht1, ht2, ht3⟩

/-- C7: `get_embeddings_for_segments` resolves segments positionally;
every blank (empty or whitespace-only) segment receives a zero vector
of the configured dimensionality at its position, and no blank segment
is ever looked up in the cache or sent to the embedding provider. -/
theorem blank_segments_get_zero_vector (env : EmbedEnv) (segments : List String) :
    (get_embeddings_for_segments env segments).embeddings
        = segments.map (resolveEmbedding env) ∧
      (∀ i, i < segments.length → isBlankSegment (segments.getD i "") = true →
        (get_embeddings_for_segments env segments).embeddings.getD i []
          = List.replicate env.embedding_dims 0) ∧
      (∀ t ∈ (get_embeddings_for_segments env segments).provider_calls,
        t ∈ segments ∧ isBlankSegment t = false) ∧
      (∀ k ∈ (get_embeddings_for_segments env segments).cache_lookups,
        ∃ t, t ∈ segments ∧ isBlankSegment t = false ∧ k = env.segment_key t) := by
  obtain ⟨hE, hP, hC⟩ := get_embeddings_foldl env segments ⟨[], [], []⟩
  have hE' : (get_embeddings_for_segments env segments).embeddings
      = segments.map (resolveEmbedding env) := by simpa [get_embeddings_for_segments] using hE
  refine ⟨hE', ?_, ?_, ?_⟩
  · intro i hi hblank
    rw [hE', List.getD_eq_getElem _ _ (by simpa using hi), List.getElem_map]
    rw [List.getD_eq_getElem _ _ hi] at hblank
    unfold resolveEmbedding
    rw [if_pos hblank]
  · intro t ht
    rcases hP t (by simpa [get_embeddings_for_segments] using ht) with h | h
    · simp at h
    · exact h
  · intro k hk
    rcases hC k (by simpa [get_embeddings_for_segments] using hk) with h | h
    · simp at h
    · exact h

/-- Witness for C7 at a concrete environment and segment list. -/
theorem blank_segments_get_zero_vector_witness :
    (0 : ℕ) < 2 ∧
      isBlankSegment ((["", "hi"] : List String).getD 0 "") = true ∧
      (get_embeddings_for_segments
          ⟨3, false, fun _ => none, fun _ => [(1 : ℝ)], fun s => s⟩
          ["", "hi"]).embeddings.getD 0 []
        = List.replicate 3 0 := by
  refine ⟨by omega, by decide, ?_⟩
  exact (blank_segments_get_zero_vector
    ⟨3, false, fun _ => none, fun _ => [(1 : ℝ)], fun s => s⟩ ["", "hi"]).2.1
    0 (by simp) (by decide)
